import Mathlib

/-
  Verification of the route resolution and request pipeline engine of the
  appgeist restful-api package against its design specification.

  The JavaScript sources embedded here are src/index.js, src/lib/buildRoutes.js
  and src/lib/errorHandler.js.  Strings are modelled as lists of characters;
  JavaScript string comparison (UTF-16 code units) is modelled by comparing
  character codes, which agrees on all code points the route files use.
-/

namespace RestfulApi

/-- Strings of the JavaScript source, modelled as lists of characters. -/
abbrev Str := List Char

/-! ## HTTP status constants (from the http-status-codes v1 package) -/

/-- http-status-codes: OK.  Express res.json sends this status by default. -/
def OK : Nat := 200

/-- http-status-codes: CREATED. -/
def CREATED : Nat := 201

/-- http-status-codes: NO_CONTENT. -/
def NO_CONTENT : Nat := 204

/-- http-status-codes: BAD_REQUEST. -/
def BAD_REQUEST : Nat := 400

/-- http-status-codes: INTERNAL_SERVER_ERROR. -/
def INTERNAL_SERVER_ERROR : Nat := 500

/-- http-status-codes v1: getStatusText(INTERNAL_SERVER_ERROR).  A constant
reason phrase, independent of any caught error. -/
def serverErrorText : String := "Server Error"

/-! ## JavaScript values exchanged with handlers -/

/-- A JSON-serialisable JavaScript value.  Falsy values such as false, 0 and
the empty string are ordinary values here, distinct from undefined and null. -/
inductive JsVal where
  | jbool (b : Bool)
  | jnum (n : Int)
  | jstr (s : String)
  | jlist (xs : List JsVal)
  | jobj (fields : List (String × JsVal))

/-- The value a request handler settles with: undefined, null, or a value. -/
inductive JsResult where
  | undefined
  | null
  | val (v : JsVal)

/-- A JavaScript object used for req.params, req.query and req.body. -/
abbrev JsObj := List (String × JsVal)

/-- The request data destructured by the pipeline:
const \x7b params, query, body \x7d = req. -/
structure Req where
  params : JsObj
  query : JsObj
  body : JsObj

/-! ## The error taxonomy (yup.ValidationError, lib/ApiError.js, other) -/

/-- A failure reaching the terminal error handler.  The validation
constructor embeds yup.ValidationError (message plus collected errors).
The api constructor is modelled from the spec: lib/ApiError.js is not among
the sources, and the spec states a DeclaredApiFailure carries an explicit
numeric HTTP status and a message.  The other constructor is any undeclared
failure, carrying its message and stack. -/
inductive Err where
  | validation (message : String) (errors : List String)
  | api (httpStatusCode : Nat) (message : String)
  | other (message : String) (stack : String)

/-- The body shape sent by the error handler: res.send of an object with a
message and, for validation failures only, an errors array. -/
structure RespBody where
  message : String
  errors : Option (List String)
deriving DecidableEq

/-- What the error handler in src/lib/errorHandler.js does with a failure:
either forward it to the host fallback via next(err), writing no response,
or write exactly one response with a status and body. -/
inductive ErrOutcome where
  | forward (e : Err)
  | respond (status : Nat) (body : RespBody)

/-- src/lib/errorHandler.js.  The first parameter is res.headersSent.  If the
response has begun, next(err); a yup ValidationError gets BAD_REQUEST with
message and errors; an ApiError gets its own httpStatusCode with only its
message; anything else is logged and answered with INTERNAL_SERVER_ERROR and
the constant getStatusText(INTERNAL_SERVER_ERROR) body. -/
def errorHandler (headersSent : Bool) (err : Err) : ErrOutcome :=
  if headersSent then ErrOutcome.forward err
  else
    match err with
    | Err.validation message errors =>
        ErrOutcome.respond BAD_REQUEST { message := message, errors := some errors }
    | Err.api httpStatusCode message =>
        ErrOutcome.respond httpStatusCode { message := message, errors := none }
    | Err.other _ _ =>
        ErrOutcome.respond INTERNAL_SERVER_ERROR { message := serverErrorText, errors := none }

/-! ## The route pattern compiler of src/lib/buildRoutes.js

The source turns the directory part of a discovered file into an URL pattern
with ROUTE_REGEXP and routeReplacer:

ROUTE_REGEXP matches a word segment, a slash, a bracketed word segment and an
optional trailing slash; routeReplacer keeps the parameter name bare when no
deeper segment follows and otherwise renames it to the singular of the owning
segment suffixed with the capitalized name.  The singular function comes from
the external pluralize package and is a parameter of the embedding, written
sing below. -/

/-- A word character of the regex class used by ROUTE_REGEXP. -/
def isWordChar (c : Char) : Bool := c.isAlpha || c.isDigit || c = '_'

/-- lodash upperFirst: converts the first character to upper case. -/
def upperFirst : Str → Str
  | [] => []
  | c :: cs => c.toUpper :: cs

/-- Consume one expected character from the front of a string. -/
def expectChar (c : Char) : Str → Option Str
  | [] => none
  | x :: xs => if x = c then some xs else none

/-- Attempt to match ROUTE_REGEXP at the start of the string.  On success it
returns the owning word segment, the bracketed name, whether the optional
trailing slash was consumed, and the remainder of the string after the
match.  The word runs are maximal, exactly as the greedy regex matches. -/
def matchAt (s : Str) : Option (Str × Str × Bool × Str) :=
  let p := s.takeWhile isWordChar
  if p.isEmpty then none
  else
    match expectChar '/' (s.dropWhile isWordChar) with
    | none => none
    | some r1 =>
      match expectChar '[' r1 with
      | none => none
      | some r2 =>
        let i := r2.takeWhile isWordChar
        if i.isEmpty then none
        else
          match expectChar ']' (r2.dropWhile isWordChar) with
          | none => none
          | some r3 =>
            match expectChar '/' r3 with
            | some r4 => some (p, i, true, r4)
            | none => some (p, i, false, r3)

/-- routeReplacer of src/lib/buildRoutes.js: the replacement emitted for one
match, parameterized by the pluralize singular function. -/
def routeReplacer (sing : Str → Str) (parent idName : Str) (slash : Bool) : Str :=
  parent ++ ('/' :: ':' ::
    ((if slash then sing parent ++ upperFirst idName else idName) ++
      (if slash then ['/'] else [])))

/-- One fuel-indexed pass of String.prototype.replace with a global regex:
find the leftmost match, emit the replacement, continue after the match;
characters before a match are copied unchanged.  The fuel only serves
termination; replaceRoute supplies enough of it. -/
def replaceGoF (sing : Str → Str) : Nat → Str → Str
  | 0, s => s
  | fuel + 1, s =>
    match matchAt s with
    | some (p, i, sl, rest) => routeReplacer sing p i sl ++ replaceGoF sing fuel rest
    | none =>
      match s with
      | [] => []
      | c :: cs => c :: replaceGoF sing fuel cs

/-- dirname(file).replace(ROUTE_REGEXP, routeReplacer) applied to an already
extracted directory string. -/
def replaceRoute (sing : Str → Str) (s : Str) : Str := replaceGoF sing s.length s

/-- Character test used by the dirname model: not a path separator. -/
def nonSlash (c : Char) : Bool := c ≠ '/'

/-- Node path.dirname for the relative slash-separated paths produced by the
recursive directory listing: everything before the last slash, a dot when
there is no slash, a single slash when the only slash leads the path. -/
def dirname (s : Str) : Str :=
  match s.reverse.dropWhile nonSlash with
  | [] => ['.']
  | [_] => ['/']
  | _ :: rest => rest.reverse

/-- The compiled URL pattern of a discovered file, line 78 of buildRoutes.js:
a leading slash prepended to the replaced directory part. -/
def routeOf (sing : Str → Str) (file : Str) : Str :=
  '/' :: replaceRoute sing (dirname file)

/-- The directory part of a path that alternates literal segments and
bracketed segments, built from the list of (literal, bracket name) pairs. -/
def dirOf : List (Str × Str) → Str
  | [] => []
  | (l, n) :: rest =>
    l ++ ('/' :: '[' :: (n ++ (']' ::
      (match rest with
       | [] => []
       | _ :: _ => '/' :: dirOf rest))))

/-- The pattern the specification promises for an alternating path: every
parameter with deeper segments below it is renamed to the singular of its
owning segment plus the capitalized bracket name, the innermost parameter
keeps its bare name. -/
def compiled (sing : Str → Str) : List (Str × Str) → Str
  | [] => []
  | (l, n) :: rest =>
    match rest with
    | [] => l ++ ('/' :: ':' :: n)
    | _ :: _ =>
      l ++ ('/' :: ':' :: ((sing l ++ upperFirst n) ++ ('/' :: compiled sing rest)))

/-! ## Discovery order: sort().reverse() of src/lib/buildRoutes.js

Array.prototype.sort with no comparator sorts strings lexicographically by
code units; the source then reverses, so files are processed in reverse
lexicographic order of their relative paths. -/

/-- Lexicographic string comparison by character codes, the JavaScript
default sort order on the path strings involved. -/
def lexLe : Str → Str → Bool
  | [], _ => true
  | _ :: _, [] => false
  | a :: as, b :: bs =>
    if a.toNat < b.toNat then true
    else if b.toNat < a.toNat then false
    else lexLe as bs

/-- lexLe as a relation, for use with the sorting function. -/
def sLe (a b : Str) : Prop := lexLe a b = true

instance : DecidableRel sLe := fun a b => by unfold sLe; infer_instance

/-- The processing order of discovered files, lines 19 - 22 of
buildRoutes.js: drop the reserved index.js, sort, reverse. -/
def processOrder (files : List Str) : List Str :=
  ((files.filter (fun f => f ≠ ("index.js").data)).insertionSort sLe).reverse

/-! ## Schema composition (yup), lines 70 - 76 of buildRoutes.js

yup is an external collaborator; the embedding keeps exactly the capabilities
the source uses: an object validator is a list of per-field rules, a rule
checks the optional field value and carries the message reported on failure,
and validation with abortEarly false collects every failing message. -/

/-- One field rule of an object validator: the field name, the check run on
the (possibly absent) field value, and the message reported on failure. -/
structure FieldRule where
  name : String
  check : Option JsVal → Bool
  message : String

/-- A yup object validator over one part of the request. -/
structure PartSchema where
  rules : List FieldRule

/-- What a route module may export for paramsSchema, querySchema or
bodySchema: either a pre-built yup validator (isSchema true) or a plain
field-rule mapping to be wrapped by object(). -/
inductive SchemaDescriptor where
  | prebuilt (s : PartSchema)
  | fieldMap (rules : List FieldRule)

/-- isSchema(x) ? x : object(x) - a pre-built validator is used verbatim, a
plain mapping is wrapped into an object validator. -/
def normalize : SchemaDescriptor → PartSchema
  | SchemaDescriptor.prebuilt s => s
  | SchemaDescriptor.fieldMap rules => { rules := rules }

/-- The composite schema built over the shape with params, query and body
members; an absent member is the undefined entry of the object() call and
imposes no field constraint. -/
structure CompositeSchema where
  params : Option PartSchema
  query : Option PartSchema
  body : Option PartSchema

/-- Lines 70 - 76 of buildRoutes.js: no composite schema when all three
descriptors are absent, otherwise one object schema whose members are the
normalized descriptors. -/
def buildSchema (p q b : Option SchemaDescriptor) : Option CompositeSchema :=
  match p, q, b with
  | none, none, none => none
  | _, _, _ => some { params := p.map normalize, query := q.map normalize, body := b.map normalize }

/-- Read a field out of a request part. -/
def lookupField (o : JsObj) (n : String) : Option JsVal :=
  (o.find? (fun kv => kv.1 = n)).map Prod.snd

/-- The messages of every rule of one part that rejects its field value; an
absent part contributes nothing. -/
def partErrors (part : Option PartSchema) (o : JsObj) : List String :=
  match part with
  | none => []
  | some ps =>
      ps.rules.filterMap (fun r => if r.check (lookupField o r.name) then none else some r.message)

/-- All violation messages of the composite schema on one request: params,
then query, then body. -/
def compositeErrors (c : CompositeSchema) (req : Req) : List String :=
  partErrors c.params req.params ++ partErrors c.query req.query ++ partErrors c.body req.body

/-- The aggregate message of a yup ValidationError; its exact text is not
load-bearing for any claim. -/
def summaryMessage (errs : List String) : String :=
  String.intercalate "; " errs

/-- schema.validate(data, \x7b abortEarly \x7d): succeed when no rule fails,
otherwise raise a ValidationError whose errors field holds either every
collected message (abortEarly false) or only the first (abortEarly true). -/
def schemaValidate (c : CompositeSchema) (req : Req) (abortEarly : Bool) : Except Err Req :=
  let errs := compositeErrors c req
  if errs.isEmpty then Except.ok req
  else Except.error (Err.validation (summaryMessage errs)
    (if abortEarly then errs.take 1 else errs))

/-- Line 106 of buildRoutes.js: if a schema was built, validate with
abortEarly false; with no schema the data passes through unmodified. -/
def runValidate (schema : Option CompositeSchema) (req : Req) : Except Err Req :=
  match schema with
  | none => Except.ok req
  | some c => schemaValidate c req false

/-! ## The per-route request pipeline, lines 98 - 118 of buildRoutes.js -/

/-- A request handler: receives the (possibly transformed) request data and
settles with a result or raises a failure.  The raw req reference spread into
the argument is an opaque host object and is not modelled. -/
abbrev HandlerFn := Req → Except Err JsResult

/-- An optional beforeRequest hook: runs on the raw request; its return value
is ignored, it can only raise a failure. -/
abbrev BeforeFn := Req → Option Err

/-- Run the optional beforeRequest hook. -/
def runBefore (before : Option BeforeFn) (req : Req) : Option Err :=
  match before with
  | none => none
  | some f => f req

/-- The response actions the registered handler takes on success:
res.sendStatus(code) with no JSON payload, or res.json(v) which serialises v
with the default success status. -/
inductive Response where
  | empty (status : Nat)
  | json (status : Nat) (v : JsVal)

/-- Lines 109 - 114 of buildRoutes.js: an undefined or null result becomes
res.sendStatus(verb === post ? CREATED : NO_CONTENT); any other value,
falsy ones included, becomes res.json(result). -/
def sendResult (verb : Str) (result : JsResult) : Response :=
  match result with
  | JsResult.undefined => Response.empty (if verb = ("post").data then CREATED else NO_CONTENT)
  | JsResult.null => Response.empty (if verb = ("post").data then CREATED else NO_CONTENT)
  | JsResult.val v => Response.json OK v

/-- The registered route handler, lines 98 - 118 of buildRoutes.js: run the
hook, extract and validate the data, run the handler, map the result; any
failure at any step is caught once and passed to next(err), modelled as the
error branch. -/
def handleRequest (before : Option BeforeFn) (schema : Option CompositeSchema)
    (handler : HandlerFn) (verb : Str) (req : Req) : Except Err Response :=
  match runBefore before req with
  | some e => Except.error e
  | none =>
    match runValidate schema req with
    | Except.error e => Except.error e
    | Except.ok d =>
      match handler d with
      | Except.error e => Except.error e
      | Except.ok result => Except.ok (sendResult verb result)

/-! ## Module loading and route registration, lines 23 - 119 of buildRoutes.js -/

/-- What require(resolve(routesDir, file)) does for one discovered file:
throw (syntax error and the like), evaluate to a bare handler function, or
evaluate to a structured export with optional schemas, an optional
beforeRequest hook and an optional onRequest handler (none also covers an
export whose onRequest is not a function). -/
inductive LoadResult where
  | throws (msg : String)
  | bare (h : HandlerFn)
  | structured (paramsSchema querySchema bodySchema : Option SchemaDescriptor)
      (beforeRequest : Option BeforeFn) (onRequest : Option HandlerFn)

/-- One entry of the recursive directory listing: the relative path and what
loading the module would produce. -/
structure FileEntry where
  path : Str
  load : LoadResult

/-- A registered route of the compiled route table. -/
structure Route where
  verb : Str
  pattern : Str
  schema : Option CompositeSchema
  before : Option BeforeFn
  handler : HandlerFn
  path : Str

/-- The last path component. -/
def baseName (s : Str) : Str :=
  (s.reverse.takeWhile nonSlash).reverse

/-- Node path.basename(file, ext) with ext .js: the last component with a
trailing .js stripped unless the component is nothing but the extension. -/
def stem (s : Str) : Str :=
  let b := baseName s
  if b.reverse.take 3 = (['s', 'j', '.'] : Str) ∧ 3 < b.length
  then (b.reverse.drop 3).reverse else b

/-- VALID_VERBS of buildRoutes.js. -/
def VALID_VERBS : List Str :=
  [("get").data, ("post").data, ("put").data, ("patch").data, ("delete").data]

/-- The diagnostic logged for a file whose name is not a valid verb. -/
def invalidVerbMsg : String :=
  "Skipping invalid file; name must be one of get.js, post.js, put.js, patch.js or delete.js"

/-- The diagnostic logged for a structured export without a request handler. -/
def noHandlerMsg : String :=
  "Skipping invalid file; no request handler found"

/-- What the forEach body does with one file: skip with a warning when the
name is not a valid verb; otherwise load the module - an exception from
require propagates, there is no surrounding try/catch; a bare function
becomes the handler with no schemas; a structured export without a handler
function is skipped with a warning; otherwise the route is registered with
its composite schema and compiled pattern. -/
inductive ProcessOutcome where
  | throw (msg : String)
  | skip (warning : String)
  | register (r : Route)

def processFile (sing : Str → Str) (f : FileEntry) : ProcessOutcome :=
  if stem f.path ∈ VALID_VERBS then
    match f.load with
    | LoadResult.throws m => ProcessOutcome.throw m
    | LoadResult.bare h =>
        ProcessOutcome.register
          { verb := stem f.path, pattern := routeOf sing f.path, schema := none,
            before := none, handler := h, path := f.path }
    | LoadResult.structured _ _ _ _ none => ProcessOutcome.skip noHandlerMsg
    | LoadResult.structured p q b bh (some h) =>
        ProcessOutcome.register
          { verb := stem f.path, pattern := routeOf sing f.path, schema := buildSchema p q b,
            before := bh, handler := h, path := f.path }
  else ProcessOutcome.skip invalidVerbMsg

/-- The forEach over the ordered files: collect registered routes and logged
warnings; an uncaught load exception aborts the whole traversal. -/
def registerFiles (sing : Str → Str) : List FileEntry → Except String (List Route × List String)
  | [] => Except.ok ([], [])
  | f :: rest =>
    match processFile sing f with
    | ProcessOutcome.throw m => Except.error m
    | ProcessOutcome.skip w =>
        (registerFiles sing rest).map (fun rw => (rw.1, w :: rw.2))
    | ProcessOutcome.register r =>
        (registerFiles sing rest).map (fun rw => (r :: rw.1, rw.2))

/-- The order relation on directory entries used by sort(): compare the
relative paths. -/
def entryLe (a b : FileEntry) : Prop := sLe a.path b.path

instance : DecidableRel entryLe := fun a b => by unfold entryLe; infer_instance

/-- module.exports of src/lib/buildRoutes.js: list the directory, drop
index.js, sort and reverse, then process every file in order. -/
def buildRoutes (sing : Str → Str) (files : List FileEntry) :
    Except String (List Route × List String) :=
  registerFiles sing
    (((files.filter (fun f => f.path ≠ ("index.js").data)).insertionSort entryLe).reverse)

/-! ## The registration entry point, src/index.js -/

/-- The optional options argument of the entry point; its errorHandler member
overrides the default error translator. -/
structure ApiOptions where
  errorHandler : Option (Bool → Err → ErrOutcome)

/-- The middleware stack of the built Express app, in installation order. -/
inductive Layer where
  | jsonMiddleware
  | route (r : Route)
  | errorware (h : Bool → Err → ErrOutcome)

/-- src/index.js: module.exports = (routesDir = ./routes,
\x7b errorHandler = require(./lib/errorHandler) \x7d) => ... .  The second
parameter is destructured with no default object, so omitting it makes the
destructuring of undefined throw a TypeError before anything is wired; that
is the error branch below.  With an options object present the app is
express() followed by the json body parser, the routes built from the routes
directory (routesDir defaulting to ./routes picks what the filesystem holds
there), and the error handler installed last. -/
def api (fs : String → List FileEntry) (sing : Str → Str)
    (routesDir : Option String) (options : Option ApiOptions) : Except String (List Layer) :=
  match options with
  | none => Except.error "TypeError: cannot destructure the options parameter as it is undefined"
  | some opts =>
    let eh := opts.errorHandler.getD errorHandler
    let rd := routesDir.getD "./routes"
    match buildRoutes sing (fs rd) with
    | Except.error m => Except.error m
    | Except.ok (rs, _) =>
        Except.ok (Layer.jsonMiddleware :: (rs.map Layer.route ++ [Layer.errorware eh]))

/-! ## Sample values used by witnesses and counterexamples -/

/-- A trivial request handler settling with undefined. -/
def okUndef : HandlerFn := fun _ => Except.ok JsResult.undefined

/-- An empty request. -/
def req0 : Req := { params := [], query := [], body := [] }

/-- An identity stand-in for the pluralize singular function, adequate for
the single-letter segment names of the concrete examples. -/
def idSing : Str → Str := fun s => s

/-- A composite schema with one params rule and one body rule, both of which
the empty request violates. -/
def cSample : CompositeSchema :=
  { params := some { rules := [FieldRule.mk "id" (fun _ => false) "params.id must be a number"] },
    query := none,
    body := some { rules := [FieldRule.mk "name" (fun v => v.isSome) "body.name is required"] } }

/-- A directory entry holding a bare handler at a/get.js. -/
def entryA : FileEntry := { path := ("a/get.js").data, load := LoadResult.bare okUndef }

/-- The route that registering entryA produces. -/
def routeA : Route :=
  { verb := stem (("a/get.js").data), pattern := routeOf idSing (("a/get.js").data),
    schema := none, before := none, handler := okUndef, path := ("a/get.js").data }

end RestfulApi

namespace RestfulApi

/-- C2: every error reaching the terminal translator is handled exactly as the
spec states: with headers already sent it is forwarded to the host fallback and
no response is written; otherwise a validation failure yields 400 with message
and errors array, a declared ApiError yields its own status with only its
message, and any undeclared failure yields 500 with the constant generic body,
which is independent of the fault and so never leaks its message text. -/
theorem errorHandler_cases :
    (∀ e, errorHandler true e = ErrOutcome.forward e)
    ∧ (∀ m es, errorHandler false (Err.validation m es)
        = ErrOutcome.respond BAD_REQUEST { message := m, errors := some es })
    ∧ (∀ c m, errorHandler false (Err.api c m)
        = ErrOutcome.respond c { message := m, errors := none })
    ∧ (∀ m st, errorHandler false (Err.other m st)
        = ErrOutcome.respond INTERNAL_SERVER_ERROR { message := serverErrorText, errors := none }) :=
  ⟨fun _ => rfl, fun _ _ => rfl, fun _ _ => rfl, fun _ _ => rfl⟩

/-! ## Helper lemmas about maximal character runs -/

theorem takeWhile_append_stop (p : Char → Bool) (w : Str) (c : Char) (r : Str)
    (hw : ∀ x ∈ w, p x = true) (hc : p c = false) :
    (w ++ c :: r).takeWhile p = w := by
  induction w with
  | nil => simp [List.takeWhile_cons, hc]
  | cons a as ih =>
    have ha : p a = true := hw a (by simp)
    simp [List.takeWhile_cons, ha, ih fun x hx => hw x (List.mem_cons_of_mem a hx)]

theorem dropWhile_append_stop (p : Char → Bool) (w : Str) (c : Char) (r : Str)
    (hw : ∀ x ∈ w, p x = true) (hc : p c = false) :
    (w ++ c :: r).dropWhile p = c :: r := by
  induction w with
  | nil => simp [List.dropWhile_cons, hc]
  | cons a as ih =>
    have ha : p a = true := hw a (by simp)
    simp [List.dropWhile_cons, ha, ih fun x hx => hw x (List.mem_cons_of_mem a hx)]

theorem dropWhile_all (p : Char → Bool) (l : Str) (h : ∀ x ∈ l, p x = true) :
    l.dropWhile p = [] := by
  induction l with
  | nil => rfl
  | cons a as ih =>
    simp [List.dropWhile_cons, h a (by simp), ih fun x hx => h x (List.mem_cons_of_mem a hx)]

theorem isEmpty_false_of_ne_nil {l : Str} (h : l ≠ []) : l.isEmpty = false := by
  cases l with
  | nil => exact absurd rfl h
  | cons a as => rfl

/-! ## How matchAt behaves on an alternating segment string -/

theorem matchAt_slash (l n t : Str) (hl : l ≠ []) (hn : n ≠ [])
    (hlw : ∀ c ∈ l, isWordChar c = true) (hnw : ∀ c ∈ n, isWordChar c = true) :
    matchAt (l ++ ('/' :: '[' :: (n ++ (']' :: '/' :: t)))) = some (l, n, true, t) := by
  have hslash : isWordChar '/' = false := by decide
  have hbr : isWordChar ']' = false := by decide
  have ht := takeWhile_append_stop isWordChar l '/' ('[' :: (n ++ (']' :: '/' :: t))) hlw hslash
  have hd := dropWhile_append_stop isWordChar l '/' ('[' :: (n ++ (']' :: '/' :: t))) hlw hslash
  have ht2 := takeWhile_append_stop isWordChar n ']' ('/' :: t) hnw hbr
  have hd2 := dropWhile_append_stop isWordChar n ']' ('/' :: t) hnw hbr
  simp [matchAt, ht, hd, ht2, hd2, expectChar,
    isEmpty_false_of_ne_nil hl, isEmpty_false_of_ne_nil hn]

theorem matchAt_last (l n : Str) (hl : l ≠ []) (hn : n ≠ [])
    (hlw : ∀ c ∈ l, isWordChar c = true) (hnw : ∀ c ∈ n, isWordChar c = true) :
    matchAt (l ++ ('/' :: '[' :: (n ++ (']' :: [])))) = some (l, n, false, []) := by
  have hslash : isWordChar '/' = false := by decide
  have hbr : isWordChar ']' = false := by decide
  have ht := takeWhile_append_stop isWordChar l '/' ('[' :: (n ++ (']' :: []))) hlw hslash
  have hd := dropWhile_append_stop isWordChar l '/' ('[' :: (n ++ (']' :: []))) hlw hslash
  have ht2 := takeWhile_append_stop isWordChar n ']' [] hnw hbr
  have hd2 := dropWhile_append_stop isWordChar n ']' [] hnw hbr
  simp [matchAt, ht, hd, ht2, hd2, expectChar,
    isEmpty_false_of_ne_nil hl, isEmpty_false_of_ne_nil hn]

theorem replaceGoF_nil (sing : Str → Str) (fuel : Nat) : replaceGoF sing fuel [] = [] := by
  cases fuel <;> rfl

/-- The regex replacement pass turns an alternating directory string into the
pattern the specification promises, provided enough fuel. -/
theorem replaceGoF_dirOf (sing : Str → Str) :
    ∀ segs : List (Str × Str), segs ≠ [] →
    (∀ pr ∈ segs, pr.1 ≠ [] ∧ pr.2 ≠ [] ∧ (∀ c ∈ pr.1, isWordChar c = true) ∧
      (∀ c ∈ pr.2, isWordChar c = true)) →
    ∀ fuel, (dirOf segs).length ≤ fuel →
    replaceGoF sing fuel (dirOf segs) = compiled sing segs := by
  intro segs
  induction segs with
  | nil => intro h; exact absurd rfl h
  | cons hd tl ih =>
    obtain ⟨l, n⟩ := hd
    intro _ hval fuel hfuel
    obtain ⟨hl, hn, hlw, hnw⟩ := hval (l, n) (List.mem_cons_self _ _)
    cases tl with
    | nil =>
      have hform : dirOf [(l, n)] = l ++ ('/' :: '[' :: (n ++ (']' :: []))) := by
        simp [dirOf]
      rw [hform] at hfuel ⊢
      have hpos : 1 ≤ l.length := List.length_pos.mpr hl
      have : ∃ f, fuel = f + 1 := by
        refine ⟨fuel - 1, ?_⟩
        simp [List.length_append] at hfuel
        omega
      obtain ⟨f, rfl⟩ := this
      simp [replaceGoF, matchAt_last l n hl hn hlw hnw, routeReplacer,
        replaceGoF_nil, compiled]
    | cons r rs =>
      have hform : dirOf ((l, n) :: r :: rs)
          = l ++ ('/' :: '[' :: (n ++ (']' :: '/' :: dirOf (r :: rs)))) := by
        simp [dirOf]
      rw [hform] at hfuel ⊢
      have hpos : 1 ≤ l.length := List.length_pos.mpr hl
      have hlen : l.length + n.length + 4 + (dirOf (r :: rs)).length
          = (l ++ ('/' :: '[' :: (n ++ (']' :: '/' :: dirOf (r :: rs))))).length := by
        simp [List.length_append]
        omega
      have : ∃ f, fuel = f + 1 ∧ (dirOf (r :: rs)).length ≤ f := by
        refine ⟨fuel - 1, ?_, ?_⟩ <;> omega
      obtain ⟨f, rfl, hrest⟩ := this
      have ihr := ih (by simp) (fun pr hpr => hval pr (List.mem_cons_of_mem _ hpr)) f hrest
      simp [replaceGoF, matchAt_slash l n (dirOf (r :: rs)) hl hn hlw hnw, routeReplacer,
        ihr, compiled]

/-! ## dirname facts -/

theorem dirname_append (d bfile : Str) (hd : d ≠ []) (hb : ('/' : Char) ∉ bfile) :
    dirname (d ++ '/' :: bfile) = d := by
  have hrev : (d ++ '/' :: bfile).reverse = bfile.reverse ++ '/' :: d.reverse := by
    simp [List.reverse_append]
  have hw : ∀ x ∈ bfile.reverse, nonSlash x = true := by
    intro x hx
    have hxs : x ∈ bfile := List.mem_reverse.mp hx
    simp [nonSlash]
    intro hxeq
    exact hb (hxeq ▸ hxs)
  have hdrop := dropWhile_append_stop nonSlash bfile.reverse '/' d.reverse hw (by decide)
  rcases hde : d.reverse with _ | ⟨x, xs⟩
  · exact absurd (by simpa using congrArg List.reverse hde) hd
  · rw [hde] at hdrop
    simp only [dirname, hrev, hde, hdrop]
    rw [← hde, List.reverse_reverse]

theorem dirname_noslash (s : Str) (h : ('/' : Char) ∉ s) : dirname s = ['.'] := by
  have hw : ∀ x ∈ s.reverse, nonSlash x = true := by
    intro x hx
    have hxs : x ∈ s := List.mem_reverse.mp hx
    simp [nonSlash]
    intro hxeq
    exact h (hxeq ▸ hxs)
  simp [dirname, dropWhile_all nonSlash s.reverse hw]

theorem dirOf_ne_nil (segs : List (Str × Str)) (h : segs ≠ []) : dirOf segs ≠ [] := by
  cases segs with
  | nil => exact absurd rfl h
  | cons hd tl =>
    obtain ⟨l, n⟩ := hd
    simp [dirOf]

/-- The compiled pattern of an alternating path: the route prepends a slash to
the replaced directory part. -/
theorem routeOf_dirOf (sing : Str → Str) (segs : List (Str × Str)) (hne : segs ≠ [])
    (hval : ∀ pr ∈ segs, pr.1 ≠ [] ∧ pr.2 ≠ [] ∧ (∀ c ∈ pr.1, isWordChar c = true) ∧
      (∀ c ∈ pr.2, isWordChar c = true))
    (bfile : Str) (hb : ('/' : Char) ∉ bfile) :
    routeOf sing (dirOf segs ++ '/' :: bfile) = '/' :: compiled sing segs := by
  have hdn : dirname (dirOf segs ++ '/' :: bfile) = dirOf segs :=
    dirname_append _ _ (dirOf_ne_nil segs hne) hb
  simp only [routeOf, hdn, replaceRoute]
  rw [replaceGoF_dirOf sing segs hne hval (dirOf segs).length le_rfl]

/-- C1: for every file path whose directory part alternates literal word
segments and bracketed word segments, the compiled pattern renames every
parameter that has deeper segments below it to the singular of the owning
segment joined with the capitalized bracket name and leaves the innermost
parameter bare; in particular, since pluralize leaves the words a and b
unchanged, a/[id]/b/[id] compiles to /a/:aId/b/:id and a/[id]/b/[id]/c/[id]
compiles to /a/:aId/b/:bId/c/:id. -/
theorem route_alternating_compile (sing : Str → Str)
    (hsa : sing ['a'] = ['a']) (hsb : sing ['b'] = ['b'])
    (segs : List (Str × Str)) (hne : segs ≠ [])
    (hval : ∀ pr ∈ segs, pr.1 ≠ [] ∧ pr.2 ≠ [] ∧ (∀ c ∈ pr.1, isWordChar c = true) ∧
      (∀ c ∈ pr.2, isWordChar c = true))
    (bfile : Str) (hb : ('/' : Char) ∉ bfile) :
    routeOf sing (dirOf segs ++ '/' :: bfile) = '/' :: compiled sing segs
    ∧ routeOf sing (("a/[id]/b/[id]/get.js").data) = ("/a/:aId/b/:id").data
    ∧ routeOf sing (("a/[id]/b/[id]/c/[id]/get.js").data) = ("/a/:aId/b/:bId/c/:id").data := by
  refine ⟨routeOf_dirOf sing segs hne hval bfile hb, ?_, ?_⟩
  · have harg : ("a/[id]/b/[id]/get.js").data
        = dirOf [((['a'] : Str), (['i', 'd'] : Str)), ((['b'] : Str), (['i', 'd'] : Str))]
          ++ '/' :: (("get.js").data) := by decide
    rw [harg, routeOf_dirOf sing _ (by simp) (by decide) _ (by decide)]
    simp [compiled, upperFirst, hsa]
  · have harg : ("a/[id]/b/[id]/c/[id]/get.js").data
        = dirOf [((['a'] : Str), (['i', 'd'] : Str)), ((['b'] : Str), (['i', 'd'] : Str)),
            ((['c'] : Str), (['i', 'd'] : Str))]
          ++ '/' :: (("get.js").data) := by decide
    rw [harg, routeOf_dirOf sing _ (by simp) (by decide) _ (by decide)]
    simp [compiled, upperFirst, hsa, hsb]

/-- Witness for C1 at the identity singular function and the one-pair layout
a/[id], checking the hypotheses concretely and instancing the conclusion. -/
theorem route_alternating_compile_witness :
    ((fun s : Str => s) ['a'] = ['a'])
    ∧ (('/' : Char) ∉ ("get.js").data)
    ∧ routeOf (fun s : Str => s)
        (dirOf [((['a'] : Str), (['i', 'd'] : Str))] ++ '/' :: ("get.js").data)
      = '/' :: compiled (fun s : Str => s) [((['a'] : Str), (['i', 'd'] : Str))]
    ∧ routeOf (fun s : Str => s) (("a/[id]/b/[id]/get.js").data) = ("/a/:aId/b/:id").data := by
  have h := route_alternating_compile (fun s : Str => s) rfl rfl
    [((['a'] : Str), (['i', 'd'] : Str))] (by simp) (by decide) (("get.js").data) (by decide)
  exact ⟨rfl, by decide, h.1, h.2.1⟩

/-- C10: a verb file sitting directly in the routes root has directory part
dot, so the compiled pattern is the literal string /. and not the root
pattern /. -/
theorem route_root_verb_file (sing : Str → Str) (file : Str)
    (h : ('/' : Char) ∉ file) :
    routeOf sing file = ("/.").data ∧ routeOf sing file ≠ ("/").data := by
  have e : routeOf sing file = ("/.").data := by
    simp only [routeOf, replaceRoute, dirname_noslash file h]
    rfl
  refine ⟨e, ?_⟩
  rw [e]
  decide

/-- Witness for C10 at the file get.js. -/
theorem route_root_verb_file_witness :
    (('/' : Char) ∉ ("get.js").data)
    ∧ routeOf (fun s : Str => s) (("get.js").data) = ("/.").data := by
  exact ⟨by decide, (route_root_verb_file (fun s : Str => s) (("get.js").data) (by decide)).1⟩

/-! ## Discovery order -/

theorem lexLe_total : ∀ a b : Str, lexLe a b = true ∨ lexLe b a = true := by
  intro a
  induction a with
  | nil => intro b; left; rfl
  | cons x xs ih =>
    intro b
    cases b with
    | nil => right; rfl
    | cons y ys =>
      by_cases h1 : x.toNat < y.toNat
      · left; simp [lexLe, h1]
      · by_cases h2 : y.toNat < x.toNat
        · right; simp [lexLe, h2]
        · rcases ih ys with h | h
          · left; simp [lexLe, h1, h2, h]
          · right; simp [lexLe, h1, h2, h]

theorem lexLe_trans : ∀ a b c : Str, lexLe a b = true → lexLe b c = true → lexLe a c = true := by
  intro a
  induction a with
  | nil => intro b c _ _; rfl
  | cons x xs ih =>
    intro b c h1 h2
    cases b with
    | nil => simp [lexLe] at h1
    | cons y ys =>
      cases c with
      | nil => simp [lexLe] at h2
      | cons z zs =>
        simp only [lexLe] at h1 h2 ⊢
        by_cases hxy : x.toNat < y.toNat <;> by_cases hyx : y.toNat < x.toNat <;>
          by_cases hyz : y.toNat < z.toNat <;> by_cases hzy : z.toNat < y.toNat <;>
          by_cases hxz : x.toNat < z.toNat <;> by_cases hzx : z.toNat < x.toNat <;>
          simp only [hxy, hyx, hyz, hzy, hxz, hzx, if_true, if_false,
            eq_self_iff_true] at h1 h2 ⊢ <;>
        first
          | trivial
          | omega
          | exact absurd h1 Bool.false_ne_true
          | exact absurd h2 Bool.false_ne_true
          | exact ih ys zs h1 h2

/-- C3 (amended): files are processed in reverse lexicographic order of their
full relative paths; consequently a literal sibling whose leading character
compares above the opening bracket, such as resource/list, is registered
before the parameterized sibling resource/[id].  (The unrestricted claim is
refuted by processOrder_literal_after_bracket: a literal segment beginning
with an uppercase letter or digit sorts below the bracket.) -/
theorem processOrder_reverse_lex (files : List Str) :
    (processOrder files).Pairwise (fun a b => sLe b a)
    ∧ ∀ l1 l2, processOrder files = l1 ++ ("resource/[id]/get.js").data :: l2 →
        ("resource/list/get.js").data ∉ l2 := by
  haveI htot : IsTotal Str sLe := ⟨lexLe_total⟩
  haveI htr : IsTrans Str sLe := ⟨fun a b c => lexLe_trans a b c⟩
  have hsorted : List.Sorted sLe
      ((files.filter (fun f => f ≠ ("index.js").data)).insertionSort sLe) :=
    List.sorted_insertionSort sLe _
  have hpair : (processOrder files).Pairwise (fun a b => sLe b a) := by
    unfold processOrder
    rw [List.pairwise_reverse]
    exact hsorted
  refine ⟨hpair, ?_⟩
  intro l1 l2 hsplit hmem
  rw [hsplit] at hpair
  have h2 := (List.pairwise_append.mp hpair).2.1
  have hall := (List.pairwise_cons.mp h2).1
  have hlt : sLe (("resource/list/get.js").data) (("resource/[id]/get.js").data) := hall _ hmem
  exact absurd hlt (by decide)

/-- Counterexample to C3 as stated: between the sibling routes resource/A
(literal segment) and resource/[id] (bracketed segment), reverse
lexicographic order registers the parameterized route first, because the
uppercase letter sorts below the opening bracket. -/
theorem processOrder_literal_after_bracket :
    processOrder [("resource/A/get.js").data, ("resource/[id]/get.js").data]
      = [("resource/[id]/get.js").data, ("resource/A/get.js").data] := by decide

/-- Witness for C3 (amended) on the two sibling paths of the specification. -/
theorem processOrder_reverse_lex_witness :
    processOrder [("resource/list/get.js").data, ("resource/[id]/get.js").data]
      = ("resource/list/get.js").data :: ("resource/[id]/get.js").data :: []
    ∧ ("resource/list/get.js").data ∉ ([] : List Str) := by
  refine ⟨by decide, ?_⟩
  exact (processOrder_reverse_lex
    [("resource/list/get.js").data, ("resource/[id]/get.js").data]).2
    [("resource/list/get.js").data] [] (by decide)

/-! ## The request pipeline -/

/-- C4: when the pipeline reaches the handler and it settles, an undefined or
null result is answered by res.sendStatus, CREATED for the post verb and
NO_CONTENT otherwise, with no JSON payload; any other value, falsy values
included, is answered by res.json with the default success status. -/
theorem pipeline_result_mapping (before : Option BeforeFn) (schema : Option CompositeSchema)
    (handler : HandlerFn) (verb : Str) (req d : Req) (result : JsResult)
    (hb : runBefore before req = none) (hv : runValidate schema req = Except.ok d)
    (hh : handler d = Except.ok result) :
    handleRequest before schema handler verb req = Except.ok (sendResult verb result)
    ∧ ((result = JsResult.undefined ∨ result = JsResult.null) →
        sendResult verb result
          = Response.empty (if verb = ("post").data then CREATED else NO_CONTENT))
    ∧ (∀ v, sendResult verb (JsResult.val v) = Response.json OK v) := by
  refine ⟨?_, ?_, fun v => rfl⟩
  · simp [handleRequest, hb, hv, hh]
  · rintro (rfl | rfl) <;> rfl

/-- Witness for C4: a handler settling with undefined under the post verb is
answered with an empty CREATED response. -/
theorem pipeline_result_mapping_witness :
    runBefore none req0 = none
    ∧ runValidate none req0 = Except.ok req0
    ∧ okUndef req0 = Except.ok JsResult.undefined
    ∧ handleRequest none none okUndef (("post").data) req0
        = Except.ok (sendResult (("post").data) JsResult.undefined)
    ∧ sendResult (("post").data) JsResult.undefined = Response.empty CREATED := by
  have h := pipeline_result_mapping none none okUndef (("post").data) req0 req0
    JsResult.undefined rfl rfl rfl
  have h2 := h.2.1 (Or.inl rfl)
  have hif : (if ("post").data = ("post").data then CREATED else NO_CONTENT) = CREATED :=
    if_pos rfl
  rw [hif] at h2
  exact ⟨rfl, rfl, rfl, h.1, h2⟩

/-- C5: the pipeline validates with abortEarly false, so a request violating
a composite schema is refused with a single ValidationError that carries all
collected messages untruncated, the terminal handler answers it with one 400
response whose errors array is that full list, and every violation of the
params, query or body part is in that list. -/
theorem validate_collects_all (c : CompositeSchema) (req : Req)
    (h : compositeErrors c req ≠ []) :
    runValidate (some c) req
      = Except.error (Err.validation (summaryMessage (compositeErrors c req))
          (compositeErrors c req))
    ∧ errorHandler false (Err.validation (summaryMessage (compositeErrors c req))
          (compositeErrors c req))
      = ErrOutcome.respond BAD_REQUEST
          { message := summaryMessage (compositeErrors c req),
            errors := some (compositeErrors c req) }
    ∧ ∀ m, (m ∈ partErrors c.params req.params ∨ m ∈ partErrors c.query req.query ∨
        m ∈ partErrors c.body req.body) → m ∈ compositeErrors c req := by
  have hne : (compositeErrors c req).isEmpty = false := by
    cases hcc : compositeErrors c req with
    | nil => exact absurd hcc h
    | cons a as => rfl
  refine ⟨?_, rfl, ?_⟩
  · simp [runValidate, schemaValidate, hne]
  · intro m hm
    simp only [compositeErrors, List.mem_append]
    tauto

/-- Witness for C5: a request with a bad params field and a missing body
field is answered with both messages collected in one error list. -/
theorem validate_collects_all_witness :
    compositeErrors cSample req0 ≠ []
    ∧ runValidate (some cSample) req0
        = Except.error (Err.validation (summaryMessage (compositeErrors cSample req0))
            (compositeErrors cSample req0))
    ∧ compositeErrors cSample req0
        = ["params.id must be a number", "body.name is required"] := by
  have h := validate_collects_all cSample req0 (by decide)
  exact ⟨by decide, h.1, by decide⟩

/-! ## Schema composition -/

/-- C6: no composite schema is built when the three descriptors are all
absent; otherwise one composite schema over the params, query, body shape is
built in which a pre-built validator is used verbatim, a plain field mapping
is wrapped into an object validator, and an absent member imposes no field
constraint. -/
theorem buildSchema_spec :
    buildSchema none none none = none
    ∧ (∀ p q b, p.isSome ∨ q.isSome ∨ b.isSome →
        buildSchema p q b
          = some { params := p.map normalize, query := q.map normalize, body := b.map normalize })
    ∧ (∀ s, normalize (SchemaDescriptor.prebuilt s) = s)
    ∧ (∀ rules, normalize (SchemaDescriptor.fieldMap rules) = { rules := rules })
    ∧ (∀ o, partErrors none o = []) := by
  refine ⟨rfl, ?_, fun s => rfl, fun rules => rfl, fun o => rfl⟩
  intro p q b hsome
  cases p <;> cases q <;> cases b <;>
    first
      | rfl
      | simp at hsome

/-- Witness for C6 with one plain field mapping supplied. -/
theorem buildSchema_spec_witness :
    ((some (SchemaDescriptor.fieldMap [])).isSome
      ∨ (none : Option SchemaDescriptor).isSome ∨ (none : Option SchemaDescriptor).isSome)
    ∧ buildSchema (some (SchemaDescriptor.fieldMap [])) none none
        = some { params := some { rules := [] }, query := none, body := none } := by
  refine ⟨Or.inl rfl, ?_⟩
  have h := buildSchema_spec.2.1 (some (SchemaDescriptor.fieldMap [])) none none (Or.inl rfl)
  simpa [normalize] using h

/-! ## Module loading and registration -/

/-- A route is only ever produced for a file whose stem is a valid verb. -/
theorem processFile_register (sing : Str → Str) (f : FileEntry) (r : Route)
    (h : processFile sing f = ProcessOutcome.register r) :
    r.verb = stem f.path ∧ stem f.path ∈ VALID_VERBS ∧ r.path = f.path := by
  unfold processFile at h
  by_cases hv : stem f.path ∈ VALID_VERBS
  · rw [if_pos hv] at h
    cases hload : f.load with
    | throws m => rw [hload] at h; cases h
    | bare hh => rw [hload] at h; injection h with h; subst h; exact ⟨rfl, hv, rfl⟩
    | structured p q b bh oh =>
      rw [hload] at h
      cases oh with
      | none => cases h
      | some hh => injection h with h; subst h; exact ⟨rfl, hv, rfl⟩
  · rw [if_neg hv] at h; cases h

/-- Every route in an ok outcome of the traversal has a valid verb. -/
theorem registerFiles_verbs (sing : Str → Str) :
    ∀ files rs ws, registerFiles sing files = Except.ok (rs, ws) →
      ∀ r ∈ rs, r.verb ∈ VALID_VERBS := by
  intro files
  induction files with
  | nil =>
    intro rs ws h r hr
    simp only [registerFiles, Except.ok.injEq, Prod.mk.injEq] at h
    obtain ⟨h1, h2⟩ := h
    rw [← h1] at hr
    simp at hr
  | cons f rest ih =>
    intro rs ws h r hr
    rw [registerFiles] at h
    cases hp : processFile sing f with
    | throw m => rw [hp] at h; cases h
    | skip w =>
      rw [hp] at h
      cases hrec : registerFiles sing rest with
      | error m => rw [hrec] at h; cases h
      | ok rw2 =>
        rw [hrec] at h
        simp only [Except.map, Except.ok.injEq, Prod.mk.injEq] at h
        obtain ⟨h1, h2⟩ := h
        rw [← h1] at hr
        exact ih rw2.1 rw2.2 (by rw [hrec]) r hr
    | register r2 =>
      rw [hp] at h
      cases hrec : registerFiles sing rest with
      | error m => rw [hrec] at h; cases h
      | ok rw2 =>
        rw [hrec] at h
        simp only [Except.map, Except.ok.injEq, Prod.mk.injEq] at h
        obtain ⟨h1, h2⟩ := h
        rw [← h1] at hr
        rcases List.mem_cons.mp hr with rfl | hmem
        · obtain ⟨hv1, hv2, _⟩ := processFile_register sing f r hp
          rw [hv1]; exact hv2
        · exact ih rw2.1 rw2.2 (by rw [hrec]) r hmem

/-- C7 (amended): a file whose structured export has no handler function is
skipped with a diagnostic and the traversal continues with the remaining
files; but a module that throws while loading propagates its exception out of
the uncaught require call and aborts the traversal, registering none of the
remaining files.  (The unrestricted claim is refuted by
load_failure_aborts.) -/
theorem load_failure_handling (sing : Str → Str) :
    (∀ f rest p q b bh, stem f.path ∈ VALID_VERBS →
        f.load = LoadResult.structured p q b bh none →
        registerFiles sing (f :: rest)
          = (registerFiles sing rest).map (fun rw => (rw.1, noHandlerMsg :: rw.2)))
    ∧ (∀ f rest m, stem f.path ∈ VALID_VERBS → f.load = LoadResult.throws m →
        registerFiles sing (f :: rest) = Except.error m) := by
  constructor
  · intro f rest p q b bh hverb hload
    rw [registerFiles]
    unfold processFile
    rw [if_pos hverb, hload]
  · intro f rest m hverb hload
    rw [registerFiles]
    unfold processFile
    rw [if_pos hverb, hload]

/-- Counterexample to C7 as stated: with a well-formed route at a/get.js and
a module that throws a syntax error at b/get.js, the whole registration
aborts with the load error - the remaining file a/get.js, reached after
b/get.js in reverse lexicographic order, is never processed and no route
table is produced. -/
theorem load_failure_aborts :
    buildRoutes idSing
      [{ path := ("a/get.js").data, load := LoadResult.bare okUndef },
       { path := ("b/get.js").data, load := LoadResult.throws "SyntaxError: oops" }]
      = Except.error "SyntaxError: oops" := rfl

/-- Witness for C7 (amended): a structured export without a handler is
skipped with its diagnostic and the traversal of the remaining (empty) list
still completes. -/
theorem load_failure_handling_witness :
    stem (("a/get.js").data) ∈ VALID_VERBS
    ∧ registerFiles idSing
        [{ path := ("a/get.js").data, load := LoadResult.structured none none none none none }]
        = Except.ok ([], [noHandlerMsg]) := by
  refine ⟨by decide, ?_⟩
  have h := (load_failure_handling idSing).1
    { path := ("a/get.js").data, load := LoadResult.structured none none none none none }
    [] none none none none (by decide) rfl
  exact h.trans rfl

/-- C8 evaluated at the failing input: invoking the entry point of
src/index.js with the options argument omitted - the invocation the README
itself shows and the claim requires to work - throws a TypeError while
destructuring undefined, before any route is wired, instead of building the
app with the default error handler. -/
theorem api_throws_without_options :
    api (fun _ => []) idSing none none
      = Except.error "TypeError: cannot destructure the options parameter as it is undefined" :=
  rfl

/-- C9: no file whose stem is index and no file whose stem is outside the
fixed verb set ever contributes an entry to a compiled route table, and an
invalid verb name only adds a warning and continues with the next file. -/
theorem routes_verbs_only (sing : Str → Str) :
    (∀ files rs ws, buildRoutes sing files = Except.ok (rs, ws) →
        ∀ r ∈ rs, r.verb ∈ VALID_VERBS ∧ r.verb ≠ ("index").data)
    ∧ (∀ f rest, stem f.path ∉ VALID_VERBS →
        registerFiles sing (f :: rest)
          = (registerFiles sing rest).map (fun rw => (rw.1, invalidVerbMsg :: rw.2))) := by
  constructor
  · intro files rs ws h r hr
    unfold buildRoutes at h
    have hv := registerFiles_verbs sing _ rs ws h r hr
    refine ⟨hv, ?_⟩
    intro heq
    rw [heq] at hv
    exact absurd hv (by decide)
  · intro f rest hne
    rw [registerFiles]
    unfold processFile
    rw [if_neg hne]

/-- Witness for C9: registering the single file a/get.js yields exactly one
route, whose verb get is in the valid verb set and is not index. -/
theorem routes_verbs_only_witness :
    buildRoutes idSing [entryA] = Except.ok ([routeA], [])
    ∧ routeA.verb ∈ VALID_VERBS ∧ routeA.verb ≠ ("index").data := by
  have h := (routes_verbs_only idSing).1 [entryA] [routeA] [] rfl routeA (by simp)
  exact ⟨rfl, h⟩

end RestfulApi
